import Mathlib

/-!
Verification of the `git-regex-search` branch-search orchestrator
(`src/main.go`) against its natural-language specification.

Modelling choices (shallow embedding):
* Go strings are modelled as lists of characters (`Str`); the program
  only uses character-wise operations (`strings.TrimSpace`,
  `strings.Split`, `strings.SplitN`, `strings.TrimPrefix`,
  `strings.Contains`), which are reimplemented below on `List Char`.
* Each external subprocess outcome (git commands, the `rg`/`grep`
  search tool) is supplied by an environment oracle `Env`; the program
  is a pure function from the CLI input and that oracle to the trace of
  attempted git invocations (`Ev`), the stdout lines (`OutLine`, one
  constructor per print site) and the returned error (`RunError`, one
  constructor per error-construction site).
-/

namespace GitRegexSearch

/-- Strings, modelled as lists of characters. -/
abbrev Str := List Char

/-- Go `unicode.IsSpace`, restricted to the ASCII whitespace characters
(space, tab, newline, vertical tab, form feed, carriage return). -/
def goIsSpace (c : Char) : Bool :=
  c = ' ' || c = '\t' || c = '\n' || c = '\x0b' || c = '\x0c' || c = '\r'

/-- Leading-whitespace trim (left half of Go `strings.TrimSpace`). -/
def trimLeft (s : Str) : Str := s.dropWhile goIsSpace

/-- Trailing-whitespace trim (right half of Go `strings.TrimSpace`). -/
def trimRight (s : Str) : Str := (s.reverse.dropWhile goIsSpace).reverse

/-- Go `strings.TrimSpace`. -/
def trimSpace (s : Str) : Str := trimRight (trimLeft s)

/-- Go `strings.Split s sep` for a single-character separator `c`
(the program only splits on `","`, `"\n"` and `":"`).
`strings.Split "" sep = [""]`, and the result is never empty. -/
def splitChar (c : Char) : Str → List Str
  | [] => [[]]
  | a :: rest =>
    match splitChar c rest with
    | [] => [[a]]
    | h :: t => if a = c then [] :: h :: t else (a :: h) :: t

/-- Go `strings.TrimPrefix s pre` (arguments here: prefix first). -/
def trimPre (pre s : Str) : Str :=
  if pre.isPrefixOf s then s.drop pre.length else s

/-- Go `strings.SplitN s ":" 3`: at most three fields, the third field
keeps the remainder (further colons included). -/
def splitNColon (s : Str) : List Str :=
  match splitChar ':' s with
  | a :: b :: c :: rest => [a, b, List.intercalate [':'] (c :: rest)]
  | parts => parts

/-- The literal string `"origin/"` (the remote prefix stripped at
`main.go:149`). -/
def originSlash : Str := "origin/".data

/-- The literal string `"->"` (symbolic-ref marker tested at
`main.go:148`). -/
def arrowStr : Str := "->".data

/-- Number of `':'` separators occurring in a raw search-tool line. -/
def colonCount (s : Str) : Nat := s.count ':'

/-! ### Basic lemmas about the string operations -/

theorem splitChar_ne_nil (c : Char) (s : Str) : splitChar c s ≠ [] := by
  cases s with
  | nil => simp [splitChar]
  | cons a rest =>
    unfold splitChar
    cases h : splitChar c rest with
    | nil => simp
    | cons h t =>
      by_cases hac : a = c <;> simp [hac]

theorem length_splitChar (c : Char) (s : Str) :
    (splitChar c s).length = s.count c + 1 := by
  induction s with
  | nil => simp [splitChar]
  | cons a rest ih =>
    rcases h : splitChar c rest with _ | ⟨hd, tl⟩
    · exact absurd h (splitChar_ne_nil c rest)
    · rw [h] at ih
      simp only [List.length_cons] at ih
      by_cases hac : a = c
      · subst hac
        simp [splitChar, h, List.count_cons_self]
        omega
      · have hcnt : (a :: rest).count c = rest.count c :=
          List.count_cons_of_ne (fun hc => hac hc.symm) rest
        simp [splitChar, h, hac, hcnt]
        omega

theorem length_dropWhile_le' (p : Char → Bool) (l : Str) :
    (l.dropWhile p).length ≤ l.length := by
  induction l with
  | nil => simp
  | cons a rest ih =>
    by_cases h : p a <;> simp [List.dropWhile_cons, h] ; omega

theorem dropWhile_dropWhile (p : Char → Bool) (l : Str) :
    (l.dropWhile p).dropWhile p = l.dropWhile p := by
  induction l with
  | nil => simp
  | cons a rest ih =>
    by_cases h : p a <;> simp [List.dropWhile_cons, h, ih]

/-- If `dropWhile p` fixes a list, it fixes every prefix of it. -/
theorem dropWhile_eq_self_append (p : Char → Bool) (t r : Str)
    (h : (t ++ r).dropWhile p = t ++ r) : t.dropWhile p = t := by
  cases t with
  | nil => simp
  | cons a t' =>
    by_cases hpa : p a = true
    · exfalso
      have h2 : (t' ++ r).dropWhile p = a :: (t' ++ r) := by
        simpa [List.dropWhile_cons, hpa] using h
      have hle := length_dropWhile_le' p (t' ++ r)
      rw [h2] at hle
      simp at hle
    · simp [List.dropWhile_cons, hpa]

theorem dropWhile_suffix_self (p : Char → Bool) (l : Str) :
    ∃ t, t ++ l.dropWhile p = l := by
  induction l with
  | nil => exact ⟨[], rfl⟩
  | cons a rest ih =>
    by_cases h : p a = true
    · obtain ⟨t, ht⟩ := ih
      exact ⟨a :: t, by simp [List.dropWhile, h, ht]⟩
    · exact ⟨[], by simp [List.dropWhile, h]⟩

theorem trimLeft_trimLeft (s : Str) : trimLeft (trimLeft s) = trimLeft s :=
  dropWhile_dropWhile goIsSpace s

theorem trimRight_trimRight (s : Str) :
    trimRight (trimRight s) = trimRight s := by
  unfold trimRight
  simp [dropWhile_dropWhile]

/-- `trimRight` preserves the property of having no leading whitespace. -/
theorem trimLeft_trimRight (s : Str) (h : trimLeft s = s) :
    trimLeft (trimRight s) = trimRight s := by
  obtain ⟨t, ht⟩ := dropWhile_suffix_self goIsSpace s.reverse
  have hs : s = (s.reverse.dropWhile goIsSpace).reverse ++ t.reverse := by
    have := congrArg List.reverse ht
    simpa using this.symm
  unfold trimRight
  unfold trimLeft at h ⊢
  exact dropWhile_eq_self_append goIsSpace _ t.reverse (by rw [← hs]; exact h)

/-- Go `strings.TrimSpace` is idempotent. -/
theorem trimSpace_trimSpace (s : Str) : trimSpace (trimSpace s) = trimSpace s := by
  unfold trimSpace
  rw [trimLeft_trimRight (trimLeft s) (trimLeft_trimLeft s),
    trimRight_trimRight]

/-! ### The program model

`main.go`'s `Action` closure, as a pure function of the CLI input and
an oracle for the outcomes of the external subprocesses it runs. -/

/-- The CLI flags consumed by the `Action` closure (`main.go:98-107`). -/
structure Input where
  repo : Str
  regex : Str
  branchesArg : Str
  includeGlobs : List Str
  excludeGlobs : List Str
deriving DecidableEq

/-- Outcome of one `runGitCmd` invocation (`main.go:19-27`): the raw
combined stdout+stderr, and whether `cmd.Run()` returned a nil error. -/
structure GitRes where
  out : Str
  ok : Bool
deriving DecidableEq

/-- Outcome of the external search-tool invocation inside `grepRepo`
(`main.go:34-60`): whether `cmd.Run()` returned an error, and the raw
combined stdout+stderr buffer. -/
structure SearchOutcome where
  err : Bool
  out : Str
deriving DecidableEq

/-- Environment oracle for one run: results of path resolution, the
`.git` stat, `exec.LookPath("rg")`, the two git commands whose results
the program inspects, whether `regexp.Compile` accepts the pattern, and
the per-branch search-tool outcome.  (The stash/fetch/checkout/pull git
commands have their results discarded by the program, `_, _ =`, so the
oracle carries no data for them; they appear only in the trace.) -/
structure Env where
  absOk : Bool
  absPath : Str
  hasGitDir : Bool
  rgAvailable : Bool
  revParse : GitRes
  branchR : GitRes
  regexCompiles : Bool
  search : Str → SearchOutcome

/-- The string `runGitCmd` hands back to the caller: the output buffer
with surrounding whitespace trimmed (`main.go:26`). -/
def runGitCmdOut (r : GitRes) : Str := trimSpace r.out

/-- One fatal error per `fmt.Errorf` site in the `Action` closure
(`main.go:101,111,117,144,156,176`). -/
inductive RunError where
  | invalidPath
  | notARepo (p : Str)
  | gitCurrentBranch
  | branchListFailed
  | invalidRegex
  | searchFailed (b : Str)
deriving DecidableEq

/-- The `Error: <message>` text `main` prints for each error
(the `%v` details of wrapped errors are abstracted away). -/
def renderError : RunError → Str
  | RunError.invalidPath => "invalid repo path".data
  | RunError.notARepo p => "not a git repository: ".data ++ p
  | RunError.gitCurrentBranch => "failed to get current branch".data
  | RunError.branchListFailed => "failed to list remote branches".data
  | RunError.invalidRegex => "invalid regex".data
  | RunError.searchFailed b => "search failed on branch ".data ++ b

/-- Trace of attempted git subprocess invocations, one constructor per
call site of `runGitCmd` in the `Action` closure. -/
inductive Ev where
  | revParse
  | stashPush
  | fetchAll
  | branchList
  | checkoutBranch (b : Str)
  | pullBranch (b : Str)
  | searchTool (b : Str)
  | checkoutOriginal (b : Str)
  | stashPop
deriving DecidableEq

/-- Stdout, one constructor per print site of the `Action` closure
(terminal colors are formatting only and are not modelled). -/
inductive OutLine where
  | repoHeader (p : Str)
  | patternHeader (r : Str)
  | currentHeader (b : Str)
  | blank
  | globWarning
  | stashing
  | fetching
  | searchingAcross (n : Nat)
  | searchingBranch (b : Str)
  | pulling (b : Str)
  | found (n : Nat) (b : Str)
  | noMatches (b : Str)
  | matchLine (branch file lineNum text : Str)
  | restoringBranch (b : Str)
  | restoringStash
  | searchCompleted
deriving DecidableEq

/-- `grepRepo`'s result handling (`main.go:60-67`): a run error with an
empty output buffer is reported as zero matches with a nil error; any
other outcome returns the trimmed output split on newlines, also with a
nil error.  The `Bool` is whether the returned error is non-nil. -/
def grepRepo (o : SearchOutcome) : List Str × Bool :=
  if o.err = true ∧ o.out = [] then ([], false)
  else (splitChar '\n' (trimSpace o.out), false)

/-- Emission of one raw search-tool line (`main.go:185-199`):
`strings.SplitN(match, ":", 3)`; lines with fewer than three fields are
skipped, otherwise a `branch:file:line text` line is printed. -/
def matchLineOf (branch m : Str) : Option OutLine :=
  match splitNColon m with
  | f :: ln :: tx :: _ => some (OutLine.matchLine branch f ln tx)
  | _ => none

/-- The per-branch count line (`main.go:179-183`): the reported count
is the length of the raw `matches` slice. -/
def countLine (b : Str) (ms : List Str) : OutLine :=
  if ms.length > 0 then OutLine.found ms.length b
  else OutLine.noMatches b

/-- The body of the branch loop for one (already trimmed, non-empty)
branch name (`main.go:170-199`): checkout, pull, search, report. -/
def processBranch (b : Str) (o : SearchOutcome) :
    List Ev × List OutLine × Option RunError :=
  if (grepRepo o).2 = true then
    ([Ev.checkoutBranch b, Ev.pullBranch b, Ev.searchTool b],
     [OutLine.searchingBranch b, OutLine.pulling b],
     some (RunError.searchFailed b))
  else
    ([Ev.checkoutBranch b, Ev.pullBranch b, Ev.searchTool b],
     [OutLine.searchingBranch b, OutLine.pulling b,
      countLine b (grepRepo o).1] ++ (grepRepo o).1.filterMap (matchLineOf b),
     none)

/-- The branch loop (`main.go:164-200`): names are trimmed, empty names
skipped, and the loop stops early if a branch's search fails. -/
def runLoop (env : Env) : List Str → List Ev × List OutLine × Option RunError
  | [] => ([], [], none)
  | b :: rest =>
    if trimSpace b = [] then runLoop env rest
    else
      match processBranch (trimSpace b) (env.search (trimSpace b)) with
      | (evs, outs, some e) => (evs, outs, some e)
      | (evs, outs, none) =>
        ((evs ++ (runLoop env rest).1, outs ++ (runLoop env rest).2.1,
          (runLoop env rest).2.2) : List Ev × List OutLine × Option RunError)

/-- The filter applied to each line of `git branch -r` output
(`main.go:146-151`): trim, skip empty lines and symbolic refs
(containing `"->"`), strip the `origin/` prefix. -/
def remoteName (raw : Str) : Option Str :=
  if trimSpace raw ≠ [] ∧ ¬ (arrowStr <:+: trimSpace raw) then
    some (trimPre originSlash (trimSpace raw))
  else none

/-- Branch-set determination (`main.go:138-152`): the explicit
comma-separated list if given, otherwise the filtered `git branch -r`
output.  Also returns the git invocations this step attempts. -/
def determineBranches (inp : Input) (env : Env) :
    Except RunError (List Str) × List Ev :=
  if inp.branchesArg ≠ [] then
    (Except.ok (splitChar ',' inp.branchesArg), [])
  else if env.branchR.ok = false then
    (Except.error RunError.branchListFailed, [Ev.branchList])
  else
    (Except.ok ((splitChar '\n' (runGitCmdOut env.branchR)).filterMap remoteName),
     [Ev.branchList])

/-- The setup lines printed once the current branch is known
(`main.go:120-136`): header, optional glob warning, stash and fetch
progress lines. -/
def headerOuts (inp : Input) (env : Env) (currentBranch : Str) : List OutLine :=
  [OutLine.repoHeader env.absPath, OutLine.patternHeader inp.regex,
   OutLine.currentHeader currentBranch, OutLine.blank] ++
  (if (inp.includeGlobs ≠ [] ∨ inp.excludeGlobs ≠ []) ∧ env.rgAvailable = false
   then [OutLine.globWarning] else []) ++
  [OutLine.stashing, OutLine.fetching]

/-- The `Action` closure (`main.go:98-211`): path resolution, `.git`
check, current-branch lookup, header, best-effort stash and fetch,
branch determination, regex validation, the branch loop, and the final
restore.  Returns the git-invocation trace, stdout, and the error. -/
def action (inp : Input) (env : Env) :
    List Ev × List OutLine × Option RunError :=
  if env.absOk = false then ([], [], some RunError.invalidPath)
  else if env.hasGitDir = false then
    ([], [], some (RunError.notARepo env.absPath))
  else if env.revParse.ok = false then
    ([Ev.revParse], [], some RunError.gitCurrentBranch)
  else
    match determineBranches inp env with
    | (Except.error e, bevs) =>
        ([Ev.revParse, Ev.stashPush, Ev.fetchAll] ++ bevs,
         headerOuts inp env (runGitCmdOut env.revParse), some e)
    | (Except.ok branches, bevs) =>
        if env.regexCompiles = false then
          ([Ev.revParse, Ev.stashPush, Ev.fetchAll] ++ bevs,
           headerOuts inp env (runGitCmdOut env.revParse),
           some RunError.invalidRegex)
        else
          match runLoop env branches with
          | (evL, outL, some e) =>
              ([Ev.revParse, Ev.stashPush, Ev.fetchAll] ++ bevs ++ evL,
               headerOuts inp env (runGitCmdOut env.revParse) ++
                 [OutLine.searchingAcross branches.length] ++ outL, some e)
          | (evL, outL, none) =>
              ([Ev.revParse, Ev.stashPush, Ev.fetchAll] ++ bevs ++ evL ++
                 [Ev.checkoutOriginal (runGitCmdOut env.revParse), Ev.stashPop],
               headerOuts inp env (runGitCmdOut env.revParse) ++
                 [OutLine.searchingAcross branches.length] ++ outL ++
                 [OutLine.blank,
                  OutLine.restoringBranch (runGitCmdOut env.revParse),
                  OutLine.restoringStash, OutLine.searchCompleted], none)

/-- Observable outcome of a whole run. -/
structure RunOut where
  exit : Nat
  stderrLines : List Str
  stdout : List OutLine
deriving DecidableEq

/-- `main` (`main.go:214-217`): a nil error from the `Action` closure
exits 0; an error prints one `Error: <message>` line on stderr and
exits 1. -/
def runMain (inp : Input) (env : Env) : RunOut :=
  match action inp env with
  | (_, out, none) => ⟨0, [], out⟩
  | (_, out, some e) => ⟨1, ["Error: ".data ++ renderError e], out⟩

/-- The branch-name normalization performed on enumerated remote
branches (`main.go:147-149`): whitespace trim, then `origin/` strip. -/
def normalizeBranch (s : Str) : Str := trimPre originSlash (trimSpace s)

/-- The branch names actually used by the loop, read off the trace. -/
def checkoutEvs (evs : List Ev) : List Str :=
  evs.filterMap fun e =>
    match e with
    | Ev.checkoutBranch b => some b
    | _ => none

/-! ### Lemmas about the program model -/

/-- `grepRepo` always hands a nil error back to its caller
(both returns at `main.go:64` and `main.go:66` pass `nil`). -/
theorem grepRepo_err_false (o : SearchOutcome) : (grepRepo o).2 = false := by
  unfold grepRepo
  split <;> rfl

theorem processBranch_eq (b : Str) (o : SearchOutcome) :
    processBranch b o =
      ([Ev.checkoutBranch b, Ev.pullBranch b, Ev.searchTool b],
       [OutLine.searchingBranch b, OutLine.pulling b,
        countLine b (grepRepo o).1] ++ (grepRepo o).1.filterMap (matchLineOf b),
       none) := by
  simp [processBranch, grepRepo_err_false]

theorem runLoop_cons_skip (env : Env) (b : Str) (rest : List Str)
    (h : trimSpace b = []) : runLoop env (b :: rest) = runLoop env rest := by
  simp [runLoop, h]

theorem runLoop_cons (env : Env) (b : Str) (rest : List Str)
    (h : trimSpace b ≠ []) :
    runLoop env (b :: rest) =
      ([Ev.checkoutBranch (trimSpace b), Ev.pullBranch (trimSpace b),
        Ev.searchTool (trimSpace b)] ++ (runLoop env rest).1,
       [OutLine.searchingBranch (trimSpace b), OutLine.pulling (trimSpace b),
        countLine (trimSpace b) (grepRepo (env.search (trimSpace b))).1] ++
         (grepRepo (env.search (trimSpace b))).1.filterMap
           (matchLineOf (trimSpace b)) ++
         (runLoop env rest).2.1,
       (runLoop env rest).2.2) := by
  rw [runLoop, if_neg h, processBranch_eq]

/-- The loop can never stop with an error, because `grepRepo` never
reports one: the `SearchFailed` return at `main.go:176` is dead code. -/
theorem runLoop_err_none (env : Env) (bs : List Str) :
    (runLoop env bs).2.2 = none := by
  induction bs with
  | nil => rfl
  | cons b rest ih =>
    by_cases h : trimSpace b = []
    · rw [runLoop_cons_skip env b rest h]; exact ih
    · rw [runLoop_cons env b rest h]; exact ih

theorem checkoutEvs_append (l₁ l₂ : List Ev) :
    checkoutEvs (l₁ ++ l₂) = checkoutEvs l₁ ++ checkoutEvs l₂ :=
  List.filterMap_append l₁ l₂ _

theorem checkoutEvs_procEvs (x : Str) :
    checkoutEvs [Ev.checkoutBranch x, Ev.pullBranch x, Ev.searchTool x] = [x] :=
  rfl

theorem checkoutEvs_pre :
    checkoutEvs [Ev.revParse, Ev.stashPush, Ev.fetchAll] = [] := rfl

theorem checkoutEvs_preB : checkoutEvs [Ev.branchList] = [] := rfl

theorem checkoutEvs_post (cb : Str) :
    checkoutEvs [Ev.checkoutOriginal cb, Ev.stashPop] = [] := rfl

theorem checkoutEvs_nil : checkoutEvs [] = [] := rfl

theorem checkoutEvs_cons_rp (l : List Ev) :
    checkoutEvs (Ev.revParse :: l) = checkoutEvs l := rfl

theorem checkoutEvs_cons_sp (l : List Ev) :
    checkoutEvs (Ev.stashPush :: l) = checkoutEvs l := rfl

theorem checkoutEvs_cons_fa (l : List Ev) :
    checkoutEvs (Ev.fetchAll :: l) = checkoutEvs l := rfl

theorem checkoutEvs_cons_bl (l : List Ev) :
    checkoutEvs (Ev.branchList :: l) = checkoutEvs l := rfl

theorem checkoutEvs_cons_co (cb : Str) (l : List Ev) :
    checkoutEvs (Ev.checkoutOriginal cb :: l) = checkoutEvs l := rfl

theorem checkoutEvs_cons_pop (l : List Ev) :
    checkoutEvs (Ev.stashPop :: l) = checkoutEvs l := rfl

/-- The branch names the loop actually checks out: the input names,
trimmed, with empty names skipped. -/
theorem checkoutEvs_runLoop (env : Env) (bs : List Str) :
    checkoutEvs (runLoop env bs).1 =
      (bs.map trimSpace).filter (fun x => decide (x ≠ [])) := by
  induction bs with
  | nil => rfl
  | cons b rest ih =>
    by_cases h : trimSpace b = []
    · rw [runLoop_cons_skip env b rest h]
      simp [h, ih]
    · rw [runLoop_cons env b rest h, checkoutEvs_append, checkoutEvs_procEvs, ih]
      simp [h]

theorem runLoop_no_restore (env : Env) (bs : List Str) :
    (∀ b, Ev.checkoutOriginal b ∉ (runLoop env bs).1) ∧
    Ev.stashPop ∉ (runLoop env bs).1 ∧
    Ev.branchList ∉ (runLoop env bs).1 := by
  induction bs with
  | nil => simp [runLoop]
  | cons b rest ih =>
    by_cases h : trimSpace b = []
    · rw [runLoop_cons_skip env b rest h]; exact ih
    · rw [runLoop_cons env b rest h]
      refine ⟨fun c => ?_, ?_, ?_⟩ <;> simp [ih.1, ih.2.1, ih.2.2]

theorem matchLineOf_shape (b m : Str) (l : OutLine)
    (h : matchLineOf b m = some l) :
    ∃ f ln tx, l = OutLine.matchLine b f ln tx := by
  revert h
  unfold matchLineOf
  rcases splitNColon m with _ | ⟨f, _ | ⟨ln, _ | ⟨tx, r⟩⟩⟩ <;> intro h <;>
    simp at h
  exact ⟨f, ln, tx, h.symm⟩

/-- No line printed inside the branch loop is the final
`Search completed!` line. -/
theorem runLoop_no_completed (env : Env) (bs : List Str) :
    OutLine.searchCompleted ∉ (runLoop env bs).2.1 := by
  induction bs with
  | nil => simp [runLoop]
  | cons b rest ih =>
    by_cases h : trimSpace b = []
    · rw [runLoop_cons_skip env b rest h]; exact ih
    · rw [runLoop_cons env b rest h]
      intro hmem
      simp [countLine] at hmem
      rcases hmem with hmem | hmem | hmem
      · revert hmem; split <;> simp
      · obtain ⟨m, _, hm⟩ := hmem
        obtain ⟨f, ln, tx, hshape⟩ := matchLineOf_shape _ m _ hm
        simp at hshape
      · exact ih hmem

theorem headerOuts_no_completed (inp : Input) (env : Env) (cb : Str) :
    OutLine.searchCompleted ∉ headerOuts inp env cb := by
  unfold headerOuts
  split <;> simp

theorem determineBranches_cases (inp : Input) (env : Env) :
    (inp.branchesArg ≠ [] ∧
      determineBranches inp env = (Except.ok (splitChar ',' inp.branchesArg), [])) ∨
    (inp.branchesArg = [] ∧ env.branchR.ok = false ∧
      determineBranches inp env =
        (Except.error RunError.branchListFailed, [Ev.branchList])) ∨
    (inp.branchesArg = [] ∧ env.branchR.ok = true ∧
      determineBranches inp env =
        (Except.ok ((splitChar '\n' (runGitCmdOut env.branchR)).filterMap remoteName),
         [Ev.branchList])) := by
  by_cases hba : inp.branchesArg = []
  · by_cases hbo : env.branchR.ok = false
    · exact Or.inr (Or.inl ⟨hba, hbo, by simp [determineBranches, hba, hbo]⟩)
    · refine Or.inr (Or.inr ⟨hba, ?_, by simp [determineBranches, hba, hbo]⟩)
      revert hbo
      cases env.branchR.ok <;> simp
  · exact Or.inl ⟨hba, by simp [determineBranches, hba]⟩

/-- Exhaustive characterization of a run of the `Action` closure:
either one of the five reachable fatal errors, or the full success
path.  (The `SearchFailed` abort never appears: the loop cannot fail.) -/
theorem action_char (inp : Input) (env : Env) :
    (env.absOk = false ∧ action inp env = ([], [], some RunError.invalidPath)) ∨
    (env.hasGitDir = false ∧
      action inp env = ([], [], some (RunError.notARepo env.absPath))) ∨
    (env.revParse.ok = false ∧
      action inp env = ([Ev.revParse], [], some RunError.gitCurrentBranch)) ∨
    (inp.branchesArg = [] ∧ env.branchR.ok = false ∧
      action inp env =
      ([Ev.revParse, Ev.stashPush, Ev.fetchAll] ++ [Ev.branchList],
       headerOuts inp env (runGitCmdOut env.revParse),
       some RunError.branchListFailed)) ∨
    (∃ bevs, (bevs = [] ∨ bevs = [Ev.branchList]) ∧
      env.regexCompiles = false ∧
      action inp env =
        ([Ev.revParse, Ev.stashPush, Ev.fetchAll] ++ bevs,
         headerOuts inp env (runGitCmdOut env.revParse),
         some RunError.invalidRegex)) ∨
    (∃ branches bevs, (bevs = [] ∨ bevs = [Ev.branchList]) ∧
      determineBranches inp env = (Except.ok branches, bevs) ∧
      env.regexCompiles = true ∧
      action inp env =
        ([Ev.revParse, Ev.stashPush, Ev.fetchAll] ++ bevs ++
           (runLoop env branches).1 ++
           [Ev.checkoutOriginal (runGitCmdOut env.revParse), Ev.stashPop],
         headerOuts inp env (runGitCmdOut env.revParse) ++
           [OutLine.searchingAcross branches.length] ++
           (runLoop env branches).2.1 ++
           [OutLine.blank, OutLine.restoringBranch (runGitCmdOut env.revParse),
            OutLine.restoringStash, OutLine.searchCompleted], none)) := by
  by_cases habs : env.absOk = false
  · exact Or.inl ⟨habs, by simp [action, habs]⟩
  · by_cases hgit : env.hasGitDir = false
    · exact Or.inr (Or.inl ⟨hgit, by simp [action, habs, hgit]⟩)
    · by_cases hrev : env.revParse.ok = false
      · exact Or.inr (Or.inr (Or.inl ⟨hrev, by simp [action, habs, hgit, hrev]⟩))
      · rcases determineBranches_cases inp env with
          ⟨hba, hdb⟩ | ⟨hba, hbo, hdb⟩ | ⟨hba, hbo, hdb⟩
        · by_cases hre : env.regexCompiles = false
          · refine Or.inr (Or.inr (Or.inr (Or.inr (Or.inl
              ⟨[], Or.inl rfl, hre, ?_⟩))))
            simp [action, habs, hgit, hrev, hdb, hre]
          · have hre' : env.regexCompiles = true := by
              revert hre; cases env.regexCompiles <;> simp
            refine Or.inr (Or.inr (Or.inr (Or.inr (Or.inr
              ⟨splitChar ',' inp.branchesArg, [], Or.inl rfl, hdb, hre', ?_⟩))))
            rcases hrl : runLoop env (splitChar ',' inp.branchesArg) with
              ⟨evL, outL, res⟩
            have hnone := runLoop_err_none env (splitChar ',' inp.branchesArg)
            rw [hrl] at hnone
            simp at hnone
            subst hnone
            simp [action, habs, hgit, hrev, hdb, hre, hrl]
        · exact Or.inr (Or.inr (Or.inr (Or.inl
            ⟨hba, hbo, by simp [action, habs, hgit, hrev, hdb]⟩)))
        · by_cases hre : env.regexCompiles = false
          · refine Or.inr (Or.inr (Or.inr (Or.inr (Or.inl
              ⟨[Ev.branchList], Or.inr rfl, hre, ?_⟩))))
            simp [action, habs, hgit, hrev, hdb, hre]
          · have hre' : env.regexCompiles = true := by
              revert hre; cases env.regexCompiles <;> simp
            refine Or.inr (Or.inr (Or.inr (Or.inr (Or.inr
              ⟨(splitChar '\n' (runGitCmdOut env.branchR)).filterMap remoteName,
               [Ev.branchList], Or.inr rfl, hdb, hre', ?_⟩))))
            rcases hrl : runLoop env
              ((splitChar '\n' (runGitCmdOut env.branchR)).filterMap remoteName)
              with ⟨evL, outL, res⟩
            have hnone := runLoop_err_none env
              ((splitChar '\n' (runGitCmdOut env.branchR)).filterMap remoteName)
            rw [hrl] at hnone
            simp at hnone
            subst hnone
            simp [action, habs, hgit, hrev, hdb, hre, hrl]

/-- Emission of a raw line succeeds exactly when the line has at least
two `':'` separators. -/
theorem matchLineOf_isSome_iff (b m : Str) :
    (matchLineOf b m).isSome = true ↔ 2 ≤ colonCount m := by
  have hl := length_splitChar ':' m
  rcases h : splitChar ':' m with _ | ⟨f, _ | ⟨ln, _ | ⟨tx, r⟩⟩⟩
  · exact absurd h (splitChar_ne_nil ':' m)
  · rw [h] at hl
    simp at hl
    simp [matchLineOf, splitNColon, h, colonCount]
    omega
  · rw [h] at hl
    simp at hl
    simp [matchLineOf, splitNColon, h, colonCount]
    omega
  · rw [h] at hl
    simp at hl
    simp [matchLineOf, splitNColon, h, colonCount]
    omega

/-! ### Concrete fixtures used by counterexamples and witnesses -/

/-- A benign environment: path resolves, `.git` present, ripgrep
available, `rev-parse` reports `main`, one remote branch, regex
compiles, every search succeeds with empty output. -/
def envOK : Env :=
  ⟨true, "/repo".data, true, true, ⟨"main\n".data, true⟩,
   ⟨"origin/main".data, true⟩, true, fun _ => ⟨false, []⟩⟩

/-- `envOK` with a regex that does not compile. -/
def envBadRegex : Env :=
  ⟨true, "/repo".data, true, true, ⟨"main\n".data, true⟩,
   ⟨"origin/main".data, true⟩, false, fun _ => ⟨false, []⟩⟩

/-- `envOK` with no `.git` directory. -/
def envNoGit : Env :=
  ⟨true, "/repo".data, false, true, ⟨"main\n".data, true⟩,
   ⟨"origin/main".data, true⟩, true, fun _ => ⟨false, []⟩⟩

/-- `envOK` with a search tool that errors with captured output. -/
def envSearchErr : Env :=
  ⟨true, "/repo".data, true, true, ⟨"main\n".data, true⟩,
   ⟨"origin/main".data, true⟩, true, fun _ => ⟨true, "garbage".data⟩⟩

/-- Input with an explicit `--branches main` list. -/
def inpOK : Input := ⟨"repo".data, "pat".data, "main".data, [], []⟩

/-- Input with an explicit `--branches origin/main` list. -/
def inpOrigin : Input := ⟨"repo".data, "pat".data, "origin/main".data, [], []⟩

/-- Input with an explicit `--branches main,dev` list. -/
def inpTwo : Input := ⟨"repo".data, "pat".data, "main,dev".data, [], []⟩

/-- Input with no explicit branch list. -/
def inpEnum : Input := ⟨"repo".data, "pat".data, [], [], []⟩

/-! ### Claims -/

/-- Claim C4: a match line is emitted for a raw search-tool line if and
only if the line contains at least two `':'` separators; the per-branch
stdout consists of the count line (counting every raw line) followed by
exactly the lines that pass that test; and the reported count is the
total number of raw lines, so dropping malformed lines does not change
it. -/
theorem c4_matchEmission (b m : Str) (ms : List Str) (o : SearchOutcome) :
    ((matchLineOf b m).isSome = true ↔ 2 ≤ colonCount m) ∧
    (o.err = false →
      (processBranch b o).2.1 =
        [OutLine.searchingBranch b, OutLine.pulling b,
         countLine b (grepRepo o).1] ++
          (grepRepo o).1.filterMap (matchLineOf b)) ∧
    ms.length = (ms.filter (fun x => decide (2 ≤ colonCount x))).length +
      (ms.filter (fun x => ! decide (2 ≤ colonCount x))).length := by
  refine ⟨matchLineOf_isSome_iff b m, fun _ => ?_, ?_⟩
  · rw [processBranch_eq]
  · exact List.length_eq_length_filter_add _

/-- Witness for C4 at a concrete line and branch output. -/
theorem c4_matchEmission_witness :
    ((matchLineOf ("main".data) ("a:1:x".data)).isSome = true ↔
      2 ≤ colonCount ("a:1:x".data)) ∧
    (processBranch ("main".data) ⟨false, "a:1:x\nbad".data⟩).2.1 =
      [OutLine.searchingBranch ("main".data), OutLine.pulling ("main".data),
       countLine ("main".data)
         (grepRepo ⟨false, "a:1:x\nbad".data⟩).1] ++
        (grepRepo ⟨false, "a:1:x\nbad".data⟩).1.filterMap
          (matchLineOf ("main".data)) :=
  ⟨(c4_matchEmission ("main".data) ("a:1:x".data) [] ⟨false, []⟩).1,
   (c4_matchEmission ("main".data) ("a:1:x".data) []
     ⟨false, "a:1:x\nbad".data⟩).2.1 rfl⟩

/-- Claim C5 counterexample: the name `origin/origin/main` is the
result of one normalization of `origin/origin/main` preceded by an
`origin/` prefix, yet normalizing `origin/main` (itself the result of
normalizing `origin/origin/main`) changes it to `main`: normalization
is not idempotent. -/
theorem c5_counterexample :
    normalizeBranch (normalizeBranch ("origin/origin/main".data)) ≠
      normalizeBranch ("origin/origin/main".data) := by decide

/-- Claim C5 amended: normalization is idempotent on every name whose
normalized form is whitespace-trimmed and does not itself begin with
`origin/`; a doubled prefix such as `origin/origin/main` (or whitespace
exposed by stripping) escapes this and is changed again by a second
normalization. -/
theorem c5_amended (s : Str)
    (h1 : trimSpace (normalizeBranch s) = normalizeBranch s)
    (h2 : originSlash.isPrefixOf (normalizeBranch s) = false) :
    normalizeBranch (normalizeBranch s) = normalizeBranch s := by
  rw [normalizeBranch, h1, trimPre, if_neg]
  simp [h2]

/-- Witness for C5 amended at the name `" main "`. -/
theorem c5_amended_witness :
    normalizeBranch (normalizeBranch (" main ".data)) =
      normalizeBranch (" main ".data) :=
  c5_amended (" main ".data) (by decide) (by decide)

/-- Claim C6: a resolvable repository path whose directory has no
`.git` entry fails with the not-a-repo error, with an empty git trace
(no git subprocess invocations at all) and no output. -/
theorem c6_noGitDir (inp : Input) (env : Env)
    (habs : env.absOk = true) (hgit : env.hasGitDir = false) :
    action inp env = ([], [], some (RunError.notARepo env.absPath)) := by
  simp [action, habs, hgit]

/-- Witness for C6 at a concrete environment. -/
theorem c6_noGitDir_witness :
    action inpOK envNoGit = ([], [], some (RunError.notARepo ("/repo".data))) :=
  c6_noGitDir inpOK envNoGit rfl rfl

/-- Claim C9: a search invocation that exits successfully with empty or
all-whitespace output yields the singleton list of one empty line, so
the branch reports `Found 1 matches` while emitting zero match lines. -/
theorem c9_emptyOutputCountsOne (b : Str) (o : SearchOutcome)
    (herr : o.err = false) (hout : trimSpace o.out = []) :
    grepRepo o = ([[]], false) ∧
    (processBranch b o).2.1 =
      [OutLine.searchingBranch b, OutLine.pulling b, OutLine.found 1 b] := by
  have hg : grepRepo o = ([[]], false) := by
    simp [grepRepo, herr, hout, splitChar]
  refine ⟨hg, ?_⟩
  rw [processBranch_eq, hg]
  simp [countLine, matchLineOf, splitNColon, splitChar]

/-- Witness for C9 at an all-whitespace search output. -/
theorem c9_emptyOutputCountsOne_witness :
    grepRepo ⟨false, "  ".data⟩ = ([[]], false) ∧
    (processBranch ("main".data) ⟨false, "  ".data⟩).2.1 =
      [OutLine.searchingBranch ("main".data), OutLine.pulling ("main".data),
       OutLine.found 1 ("main".data)] :=
  c9_emptyOutputCountsOne ("main".data) ⟨false, "  ".data⟩ rfl (by decide)

/-- Claim C1 counterexample: with a regex that does not compile the run
does fail with the invalid-regex error, but by then the stash push and
the fetch have already been attempted — regex validation does not
precede them. -/
theorem c1_counterexample :
    (action inpOK envBadRegex).2.2 = some RunError.invalidRegex ∧
    Ev.stashPush ∈ (action inpOK envBadRegex).1 ∧
    Ev.fetchAll ∈ (action inpOK envBadRegex).1 := by decide

/-- Claim C1 amended: on a run that reaches branch determination with a
non-compiling regex, the run fails with the invalid-regex error before
any checkout is attempted, but only after the stash push and the fetch
(and, when no explicit list is given, the remote-branch enumeration)
have been attempted. -/
theorem c1_amended (inp : Input) (env : Env)
    (habs : env.absOk = true) (hgit : env.hasGitDir = true)
    (hrev : env.revParse.ok = true) (hregex : env.regexCompiles = false)
    (hbr : inp.branchesArg ≠ [] ∨ env.branchR.ok = true) :
    (action inp env).2.2 = some RunError.invalidRegex ∧
    Ev.stashPush ∈ (action inp env).1 ∧
    Ev.fetchAll ∈ (action inp env).1 ∧
    (∀ b, Ev.checkoutBranch b ∉ (action inp env).1) ∧
    (∀ b, Ev.checkoutOriginal b ∉ (action inp env).1) := by
  rcases action_char inp env with ⟨hc, _⟩ | ⟨hc, _⟩ | ⟨hc, _⟩ |
    ⟨hba, hbo, _⟩ | ⟨bevs, hbevs, _, hA⟩ | ⟨branches, bevs, _, _, hre, _⟩
  · simp [habs] at hc
  · simp [hgit] at hc
  · simp [hrev] at hc
  · rcases hbr with hbr | hbr
    · exact absurd hba hbr
    · simp [hbr] at hbo
  · rcases hbevs with rfl | rfl <;> rw [hA] <;>
      exact ⟨rfl, by simp, by simp, fun b => by simp, fun b => by simp⟩
  · simp [hregex] at hre

/-- Witness for C1 amended at a concrete environment. -/
theorem c1_amended_witness :
    (action inpOK envBadRegex).2.2 = some RunError.invalidRegex ∧
    Ev.stashPush ∈ (action inpOK envBadRegex).1 ∧
    Ev.fetchAll ∈ (action inpOK envBadRegex).1 ∧
    Ev.checkoutBranch ("main".data) ∉ (action inpOK envBadRegex).1 ∧
    Ev.checkoutOriginal ("main".data) ∉ (action inpOK envBadRegex).1 := by
  obtain ⟨h1, h2, h3, h4, h5⟩ :=
    c1_amended inpOK envBadRegex rfl rfl rfl rfl (Or.inl (by decide))
  exact ⟨h1, h2, h3, h4 _, h5 _⟩

/-- Claim C2 counterexample: a search-tool invocation that errors with
captured output does not abort the run with a search-failed error — the
run completes with exit code 0 and the captured output is even reported
as one match. -/
theorem c2_counterexample :
    (envSearchErr.search ("main".data)).err = true ∧
    (envSearchErr.search ("main".data)).out ≠ [] ∧
    (action inpOK envSearchErr).2.2 = none ∧
    (runMain inpOK envSearchErr).exit = 0 ∧
    OutLine.found 1 ("main".data) ∈ (action inpOK envSearchErr).2.1 := by
  decide

/-- Claim C2 amended: a search-tool invocation that errors with no
captured output is treated as zero matches; but `grepRepo` never
returns a non-nil error — an invocation that fails with captured output
has that output parsed as match lines — so no run ever aborts with a
search-failed error. -/
theorem c2_amended :
    (∀ o : SearchOutcome, (grepRepo o).2 = false) ∧
    (∀ o : SearchOutcome, o.err = true → o.out = [] → (grepRepo o).1 = []) ∧
    (∀ (inp : Input) (env : Env) (b : Str),
      (action inp env).2.2 ≠ some (RunError.searchFailed b)) := by
  refine ⟨grepRepo_err_false, fun o h1 h2 => by simp [grepRepo, h1, h2], ?_⟩
  intro inp env b
  rcases action_char inp env with ⟨_, hA⟩ | ⟨_, hA⟩ | ⟨_, hA⟩ |
    ⟨_, _, hA⟩ | ⟨bevs, _, _, hA⟩ | ⟨branches, bevs, _, _, _, hA⟩ <;>
    rw [hA] <;> simp

/-- Witness for C2 amended. -/
theorem c2_amended_witness :
    (grepRepo ⟨true, []⟩).1 = [] ∧
    (action inpOK envOK).2.2 ≠ some (RunError.searchFailed ("main".data)) :=
  ⟨c2_amended.2.1 ⟨true, []⟩ rfl rfl, c2_amended.2.2 inpOK envOK ("main".data)⟩

/-- Claim C3 counterexample: a name from the explicit `--branches` list
is used with its `origin/` prefix intact — the prefix is stripped only
from enumerated remote branches, not from explicit-list names. -/
theorem c3_counterexample :
    Ev.checkoutBranch ("origin/main".data) ∈ (action inpOrigin envOK).1 ∧
    Ev.checkoutBranch ("main".data) ∉ (action inpOrigin envOK).1 := by
  decide

/-- Claim C3 amended: every branch name the orchestrator uses is
trimmed of surrounding whitespace and empty names are skipped; but the
`origin/` prefix is stripped only on the remote-enumeration path
(through `remoteName`), not from explicit-list names. -/
theorem c3_amended (inp : Input) (env : Env) :
    (∀ b, b ∈ checkoutEvs (action inp env).1 → trimSpace b = b ∧ b ≠ []) ∧
    (inp.branchesArg = [] → env.branchR.ok = true →
      determineBranches inp env =
        (Except.ok ((splitChar '\n' (runGitCmdOut env.branchR)).filterMap
          remoteName), [Ev.branchList])) := by
  constructor
  · intro b hb
    rcases action_char inp env with ⟨_, hA⟩ | ⟨_, hA⟩ | ⟨_, hA⟩ |
      ⟨_, _, hA⟩ | ⟨bevs, hbevs, _, hA⟩ | ⟨branches, bevs, hbevs, _, _, hA⟩
    · rw [hA] at hb; simp [checkoutEvs] at hb
    · rw [hA] at hb; simp [checkoutEvs] at hb
    · rw [hA] at hb; simp [checkoutEvs] at hb
    · rw [hA] at hb; simp [checkoutEvs] at hb
    · rcases hbevs with rfl | rfl <;>
        (rw [hA] at hb; simp [checkoutEvs] at hb)
    · have hce : checkoutEvs (action inp env).1 =
          (branches.map trimSpace).filter (fun x => decide (x ≠ [])) := by
        rw [hA]
        rcases hbevs with rfl | rfl <;>
          simp only [checkoutEvs_append, checkoutEvs_pre, checkoutEvs_preB,
            checkoutEvs_post, checkoutEvs_nil, checkoutEvs_runLoop,
            List.nil_append, List.append_nil]
      rw [hce, List.mem_filter] at hb
      obtain ⟨hmem, hne⟩ := hb
      rw [List.mem_map] at hmem
      obtain ⟨a, _, rfl⟩ := hmem
      refine ⟨trimSpace_trimSpace a, ?_⟩
      simpa using hne
  · intro h1 h2
    simp [determineBranches, h1, h2]

/-- Witness for C3 amended: a used name on the explicit path, and the
enumeration equation on the remote path. -/
theorem c3_amended_witness :
    (trimSpace ("main".data) = ("main".data) ∧ ("main".data) ≠ ([] : Str)) ∧
    determineBranches inpEnum envOK =
      (Except.ok ((splitChar '\n' (runGitCmdOut envOK.branchR)).filterMap
        remoteName), [Ev.branchList]) :=
  ⟨(c3_amended inpOK envOK).1 ("main".data) (by decide),
   (c3_amended inpEnum envOK).2 rfl rfl⟩

/-- Claim C7: every run either exits 0 with empty stderr or exits 1
with a single `Error: <message>` stderr line; and a run that printed
`Search completed!` always exits 0. -/
theorem c7_exitDiscipline (inp : Input) (env : Env) :
    ((runMain inp env).exit = 0 ∧ (runMain inp env).stderrLines = [] ∨
     (runMain inp env).exit = 1 ∧ ∃ e,
       (runMain inp env).stderrLines = ["Error: ".data ++ renderError e]) ∧
    (OutLine.searchCompleted ∈ (runMain inp env).stdout →
      (runMain inp env).exit = 0) := by
  rcases hA : action inp env with ⟨tr, out, res⟩
  cases res with
  | none =>
    constructor
    · left
      constructor <;> simp [runMain, hA]
    · intro _
      simp [runMain, hA]
  | some e =>
    constructor
    · right
      exact ⟨by simp [runMain, hA], e, by simp [runMain, hA]⟩
    · intro hmem
      exfalso
      have hout : OutLine.searchCompleted ∈ out := by
        simpa [runMain, hA] using hmem
      rcases action_char inp env with ⟨_, hA2⟩ | ⟨_, hA2⟩ | ⟨_, hA2⟩ |
        ⟨_, _, hA2⟩ | ⟨bevs, _, _, hA2⟩ | ⟨branches, bevs, _, _, _, hA2⟩ <;>
        rw [hA] at hA2 <;> simp [Prod.mk.injEq] at hA2
      · rw [hA2.2.1] at hout; simp at hout
      · rw [hA2.2.1] at hout; simp at hout
      · rw [hA2.2.1] at hout; simp at hout
      · rw [hA2.2.1] at hout
        exact headerOuts_no_completed inp env _ hout
      · rw [hA2.2.1] at hout
        exact headerOuts_no_completed inp env _ hout

/-- Witness for C7: a successful concrete run. -/
theorem c7_exitDiscipline_witness :
    OutLine.searchCompleted ∈ (runMain inpOK envOK).stdout ∧
    (runMain inpOK envOK).exit = 0 :=
  ⟨by decide, (c7_exitDiscipline inpOK envOK).2 (by decide)⟩

/-- Claim C8: with an explicit `--branches` list of already-normalized
names, the loop checks out exactly the listed branches in the listed
order, whatever the remote-branch environment holds, and `git branch
-r` is never invoked. -/
theorem c8_explicitBranches (inp : Input) (env : Env)
    (habs : env.absOk = true) (hgit : env.hasGitDir = true)
    (hrev : env.revParse.ok = true) (hre : env.regexCompiles = true)
    (hba : inp.branchesArg ≠ [])
    (hnorm : ∀ b ∈ splitChar ',' inp.branchesArg,
      trimSpace b = b ∧ b ≠ []) :
    checkoutEvs (action inp env).1 = splitChar ',' inp.branchesArg ∧
    Ev.branchList ∉ (action inp env).1 := by
  have hdb : determineBranches inp env =
      (Except.ok (splitChar ',' inp.branchesArg), []) := by
    simp [determineBranches, hba]
  rcases action_char inp env with ⟨hc, _⟩ | ⟨hc, _⟩ | ⟨hc, _⟩ |
    ⟨hba0, _, _⟩ | ⟨bevs, _, hre0, _⟩ | ⟨branches, bevs, hbevs, hdb2, _, hA⟩
  · simp [habs] at hc
  · simp [hgit] at hc
  · simp [hrev] at hc
  · exact absurd hba0 hba
  · simp [hre] at hre0
  · rw [hdb] at hdb2
    simp [Prod.mk.injEq] at hdb2
    obtain ⟨hbr2, hbevs2⟩ := hdb2
    subst hbr2
    subst hbevs2
    have hnl := (runLoop_no_restore env (splitChar ',' inp.branchesArg)).2.2
    constructor
    · rw [hA]
      simp only [checkoutEvs_append, checkoutEvs_pre, checkoutEvs_nil,
        checkoutEvs_post, checkoutEvs_runLoop, List.append_nil, List.nil_append]
      have h1 : (splitChar ',' inp.branchesArg).map trimSpace =
          splitChar ',' inp.branchesArg := by
        conv_rhs => rw [← List.map_id (splitChar ',' inp.branchesArg)]
        exact List.map_congr_left (fun a ha => (hnorm a ha).1)
      rw [h1, List.filter_eq_self]
      intro a ha
      simp [(hnorm a ha).2]
    · rw [hA]
      simp [hnl]

/-- Witness for C8 at `--branches main,dev`. -/
theorem c8_explicitBranches_witness :
    checkoutEvs (action inpTwo envOK).1 = splitChar ',' inpTwo.branchesArg ∧
    Ev.branchList ∉ (action inpTwo envOK).1 :=
  c8_explicitBranches inpTwo envOK rfl rfl rfl rfl (by decide) (by decide)

/-- Claim C10: when a run ends in a fatal error, neither the
restore-original-branch checkout nor the stash pop is ever attempted —
they happen only on the success path. -/
theorem c10_noRestoreOnFatal (inp : Input) (env : Env) (e : RunError)
    (h : (action inp env).2.2 = some e) :
    (∀ b, Ev.checkoutOriginal b ∉ (action inp env).1) ∧
    Ev.stashPop ∉ (action inp env).1 := by
  rcases action_char inp env with ⟨_, hA⟩ | ⟨_, hA⟩ | ⟨_, hA⟩ |
    ⟨_, _, hA⟩ | ⟨bevs, hbevs, _, hA⟩ | ⟨branches, bevs, _, _, _, hA⟩
  · rw [hA]; exact ⟨fun b => by simp, by simp⟩
  · rw [hA]; exact ⟨fun b => by simp, by simp⟩
  · rw [hA]; exact ⟨fun b => by simp, by simp⟩
  · rw [hA]; exact ⟨fun b => by simp, by simp⟩
  · rcases hbevs with rfl | rfl <;>
      (rw [hA]; exact ⟨fun b => by simp, by simp⟩)
  · rw [hA] at h
    simp at h

/-- Witness for C10 at a concrete fatal (invalid-regex) run. -/
theorem c10_noRestoreOnFatal_witness :
    Ev.checkoutOriginal ("main".data) ∉ (action inpOK envBadRegex).1 ∧
    Ev.stashPop ∉ (action inpOK envBadRegex).1 :=
  ⟨(c10_noRestoreOnFatal inpOK envBadRegex RunError.invalidRegex
      (by decide)).1 _,
   (c10_noRestoreOnFatal inpOK envBadRegex RunError.invalidRegex
      (by decide)).2⟩

end GitRegexSearch
